import Mathlib

/-!
Verification of the rend-lmdb storage handler (package `lmdbh`).

The Go source stores each value as an 8-byte header (big-endian `exptime`
then big-endian `flags`) followed by the payload bytes, inside a single
LMDB table.  We embed the pure core shallowly: bytes are `Nat`s (< 256 for
real byte buffers), the table is an association list of key/value byte
lists, LMDB transactions become explicit state passing where an aborted
transaction returns the unchanged table, and `time.Now()` becomes an
explicit `now : Nat` parameter (already truncated to 32 bits, as the code
does with `uint32(time.Now().Unix())`).
-/

namespace RendLMDB

/-- Addition of two `uint32` values: wraps modulo `2^32`. -/
def addU32 (a b : Nat) : Nat := (a + b) % 4294967296

/-- The decoded logical value stored under a key (Go `entry`). -/
structure Entry where
  exptime : Nat
  flags   : Nat
  data    : List Nat
deriving DecidableEq

/-- Go `entry.expired()`: `e.exptime != 0 && e.exptime < uint32(time.Now().Unix())`. -/
def Entry.expired (e : Entry) (now : Nat) : Bool :=
  e.exptime != 0 && decide (e.exptime < now)

/-- Go `binary.BigEndian.PutUint32`: the four big-endian base-256 digits of `x`. -/
def putUint32BE (x : Nat) : List Nat :=
  [x / 16777216 % 256, x / 65536 % 256, x / 256 % 256, x % 256]

/-- Go `binary.BigEndian.Uint32`: reconstruct from the first four bytes.
The Go function panics on a slice shorter than 4 bytes; every call site in
this development guards the length, so the fallback value is never used. -/
def getUint32BE (b : List Nat) : Nat :=
  match b with
  | b0 :: b1 :: b2 :: b3 :: _ => ((b0 * 256 + b1) * 256 + b2) * 256 + b3
  | _ => 0

/-- Go `entryToBuf`: 4 bytes exptime, 4 bytes flags, then the payload. -/
def entryToBuf (e : Entry) : List Nat :=
  putUint32BE e.exptime ++ (putUint32BE e.flags ++ e.data)

/-- Go `bufToEntry`: reads `b[0:4]`, `b[4:8]`, copies `b[8:]`.  In Go this
panics when `len(b) < 8`; we model the panic as `none`. -/
def bufToEntry (b : List Nat) : Option Entry :=
  if 8 ≤ b.length then
    some { exptime := getUint32BE (b.take 4)
         , flags   := getUint32BE ((b.drop 4).take 4)
         , data    := b.drop 8 }
  else none

/-- Engine-level (LMDB) operation failures. -/
inductive LmdbErr where
  | notFound
  | keyExist
  | other (code : Nat)
deriving DecidableEq

/-- The handler's semantic error taxonomy (`common.ErrKeyNotFound`,
`common.ErrKeyExists`, or the untranslated engine error). -/
inductive CommonErr where
  | keyNotFound
  | keyExists
  | passthrough (e : LmdbErr)
deriving DecidableEq

/-- Go `decode`: maps `lmdb.NotFound` / `lmdb.KeyExist` onto the semantic
errors and passes every other engine error through unchanged. -/
def decode : LmdbErr → CommonErr
  | .notFound => .keyNotFound
  | .keyExist => .keyExists
  | e => .passthrough e

/-- The single LMDB table, as an association list from key bytes to value
bytes.  `tput` replaces, `tdel` removes, `tget` looks up. -/
abbrev Table := List (List Nat × List Nat)

def tget (t : Table) (k : List Nat) : Option (List Nat) :=
  match t.find? (fun p => p.1 == k) with
  | some p => some p.2
  | none => none

def tdel (t : Table) (k : List Nat) : Table :=
  t.filter (fun p => p.1 != k)

def tput (t : Table) (k v : List Nat) : Table :=
  (k, v) :: tdel t k

/-- LMDB `txn.Get`: value, or `MDB_NOTFOUND`. -/
def txnGet (t : Table) (k : List Nat) : Except LmdbErr (List Nat) :=
  match tget t k with
  | some v => .ok v
  | none => .error .notFound

/-- LMDB `txn.Put` with optional `lmdb.NoOverwrite` mode. -/
def txnPut (t : Table) (k v : List Nat) (noOverwrite : Bool) :
    Except LmdbErr Table :=
  if noOverwrite && (tget t k).isSome then .error .keyExist
  else .ok (tput t k v)

/-- LMDB `txn.Del`: removes the key, or `MDB_NOTFOUND` when absent. -/
def txnDel (t : Table) (k : List Nat) : Except LmdbErr Table :=
  match tget t k with
  | some _ => .ok (tdel t k)
  | none => .error .notFound

/-- `common.SetRequest`: key, payload, flags, relative TTL (`Exptime`).
The caller-supplied correlation id (`Opaque` in Go) is named `oid` here
because the Go field name is a Lean keyword. -/
structure SetRequest where
  key     : List Nat
  data    : List Nat
  flags   : Nat
  exptime : Nat
deriving DecidableEq

/-- `common.GATRequest` / `common.TouchRequest`: key, relative TTL,
correlation id (`Opaque` in Go, named `oid` here). -/
structure GATRequest where
  key     : List Nat
  exptime : Nat
  oid     : Nat
deriving DecidableEq

/-- `common.GetRequest`: parallel lists of keys, correlation ids
(`Opaques` in Go, `oids` here) and quiet flags. -/
structure GetRequest where
  keys  : List (List Nat)
  oids  : List Nat
  quiet : List Bool
deriving DecidableEq

/-- `common.GetResponse`.  Go zero values: `Miss=false`, `Flags=0`,
`Data=nil`.  The Go `Opaque` field is `oid`. -/
structure GetResponse where
  miss  : Bool
  quiet : Bool
  oid   : Nat
  flags : Nat
  key   : List Nat
  data  : List Nat
deriving DecidableEq

/-- `common.GetEResponse`: like `GetResponse` plus the entry's exptime. -/
structure GetEResponse where
  miss    : Bool
  quiet   : Bool
  oid     : Nat
  exptime : Nat
  flags   : Nat
  key     : List Nat
  data    : List Nat
deriving DecidableEq

/-- `Handler.Set`: `exptime = 0` when the request TTL is 0, else
`uint32(now) + ttl`; unconditional overwriting put.  An aborted engine
transaction leaves the table unchanged, so the result pairs the table with
the translated error. -/
def Set (t : Table) (now : Nat) (cmd : SetRequest) : Table × Option CommonErr :=
  let exptime := if 0 < cmd.exptime then addU32 now cmd.exptime else 0
  let buf := entryToBuf ⟨exptime, cmd.flags, cmd.data⟩
  match txnPut t cmd.key buf false with
  | .ok t2 => (t2, none)
  | .error e => (t, some (decode e))

/-- `Handler.Add`: like `Set` but with `lmdb.NoOverwrite`. -/
def Add (t : Table) (now : Nat) (cmd : SetRequest) : Table × Option CommonErr :=
  let exptime := if 0 < cmd.exptime then addU32 now cmd.exptime else 0
  let buf := entryToBuf ⟨exptime, cmd.flags, cmd.data⟩
  match txnPut t cmd.key buf true with
  | .ok t2 => (t2, none)
  | .error e => (t, some (decode e))

/-- `Handler.Replace`: `txn.Get` first; on error the transaction aborts
without writing, else an overwriting put. -/
def Replace (t : Table) (now : Nat) (cmd : SetRequest) : Table × Option CommonErr :=
  let exptime := if 0 < cmd.exptime then addU32 now cmd.exptime else 0
  let buf := entryToBuf ⟨exptime, cmd.flags, cmd.data⟩
  match txnGet t cmd.key with
  | .error e => (t, some (decode e))
  | .ok _ =>
    match txnPut t cmd.key buf false with
    | .ok t2 => (t2, none)
    | .error e => (t, some (decode e))

/-- `Handler.Append`: read, decode (`bufToEntry`, whose Go panic on a
short buffer is the `none` case), concatenate the request bytes after the
stored payload, keep exptime and flags, re-encode, put. -/
def Append (t : Table) (cmd : SetRequest) : Option (Table × Option CommonErr) :=
  match txnGet t cmd.key with
  | .error e => some (t, some (decode e))
  | .ok buf =>
    match bufToEntry buf with
    | none => none
    | some prev =>
      let e : Entry := ⟨prev.exptime, prev.flags, prev.data ++ cmd.data⟩
      match txnPut t cmd.key (entryToBuf e) false with
      | .ok t2 => some (t2, none)
      | .error le => some (t, some (decode le))

/-- `Handler.Prepend`: as `Append` with the request bytes placed before
the stored payload. -/
def Prepend (t : Table) (cmd : SetRequest) : Option (Table × Option CommonErr) :=
  match txnGet t cmd.key with
  | .error e => some (t, some (decode e))
  | .ok buf =>
    match bufToEntry buf with
    | none => none
    | some prev =>
      let e : Entry := ⟨prev.exptime, prev.flags, cmd.data ++ prev.data⟩
      match txnPut t cmd.key (entryToBuf e) false with
      | .ok t2 => some (t2, none)
      | .error le => some (t, some (decode le))

/-- `Handler.Touch`: read, overwrite the first four bytes with
`uint32(now) + ttl` (no special case for ttl 0), put back.  Go's
`PutUint32(buf[0:4], ..)` panics on a buffer shorter than 4 bytes, the
`none` case here. -/
def Touch (t : Table) (now : Nat) (cmd : GATRequest) : Option (Table × Option CommonErr) :=
  match txnGet t cmd.key with
  | .error e => some (t, some (decode e))
  | .ok buf =>
    if 4 ≤ buf.length then
      let buf2 := putUint32BE (addU32 now cmd.exptime) ++ buf.drop 4
      match txnPut t cmd.key buf2 false with
      | .ok t2 => some (t2, none)
      | .error le => some (t, some (decode le))
    else none

/-- `Handler.Delete`: unconditional engine delete; absence surfaces as
`keyNotFound`. -/
def Delete (t : Table) (key : List Nat) : Table × Option CommonErr :=
  match txnDel t key with
  | .ok t2 => (t2, none)
  | .error le => (t, some (decode le))

/-- `Handler.GAT`: inside one write transaction, read and decode; if the
entry is expired, delete it (the transaction then commits with a nil
error, so control continues to the final hit return); else overwrite the
exptime header with `uint32(now) + ttl` and put.  After the transaction
the overall error is translated: `keyNotFound` becomes a miss response,
any other error is returned with a zero-valued response, and a nil error
returns a hit built from the decoded entry.  Result: table, response,
error. -/
def GAT (t : Table) (now : Nat) (cmd : GATRequest) :
    Option (Table × GetResponse × Option CommonErr) :=
  match txnGet t cmd.key with
  | .error le =>
    match decode le with
    | .keyNotFound => some (t, ⟨true, false, cmd.oid, 0, cmd.key, []⟩, none)
    | de => some (t, ⟨false, false, 0, 0, [], []⟩, some de)
  | .ok buf =>
    match bufToEntry buf with
    | none => none
    | some e =>
      if e.expired now then
        match txnDel t cmd.key with
        | .ok t2 =>
          some (t2, ⟨false, false, cmd.oid, e.flags, cmd.key, e.data⟩, none)
        | .error le =>
          match decode le with
          | .keyNotFound => some (t, ⟨true, false, cmd.oid, 0, cmd.key, []⟩, none)
          | de => some (t, ⟨false, false, 0, 0, [], []⟩, some de)
      else
        let buf2 := putUint32BE (addU32 now cmd.exptime) ++ buf.drop 4
        match txnPut t cmd.key buf2 false with
        | .ok t2 =>
          some (t2, ⟨false, false, cmd.oid, e.flags, cmd.key, e.data⟩, none)
        | .error le =>
          match decode le with
          | .keyNotFound => some (t, ⟨true, false, cmd.oid, 0, cmd.key, []⟩, none)
          | de => some (t, ⟨false, false, 0, 0, [], []⟩, some de)

/-- Events observable on the two output channels of a batched lookup: a
result sent on `dataOut`, an error sent on `errorOut`, and the two channel
closes, in program order. -/
inductive Ev (α : Type) where
  | data (r : α)
  | err (e : CommonErr)
  | closeData
  | closeErr
deriving DecidableEq

/-- The loop body of `realHandleGet`, over an abstract per-key lookup
(`txn.Get` on the shared table, including possible engine failures).
For each key at its index: absence emits a miss carrying
`cmd.Quiet[idx]` / `cmd.Opaques[idx]`, a non-absence error ends the loop
with that error, otherwise the decoded entry yields a miss (expired) or a
hit.  `none` models a Go panic: an out-of-range index into the quiet or
correlation-id lists, or `bufToEntry` on a short buffer.  Returns the
emitted responses in order plus the terminal error, if any. -/
def getBody (lookup : List Nat → Except LmdbErr (List Nat)) (now : Nat)
    (quiet : List Bool) (oids : List Nat) :
    Nat → List (List Nat) → Option (List GetResponse × Option CommonErr)
  | _, [] => some ([], none)
  | idx, key :: rest =>
    match lookup key with
    | .error le =>
      match decode le with
      | .keyNotFound =>
        match quiet.get? idx, oids.get? idx with
        | some q, some o =>
          (getBody lookup now quiet oids (idx + 1) rest).map
            (fun p => (⟨true, q, o, 0, key, []⟩ :: p.1, p.2))
        | _, _ => none
      | de => some ([], some de)
    | .ok buf =>
      match bufToEntry buf with
      | none => none
      | some e =>
        match quiet.get? idx, oids.get? idx with
        | some q, some o =>
          if e.expired now then
            (getBody lookup now quiet oids (idx + 1) rest).map
              (fun p => (⟨true, q, o, 0, key, []⟩ :: p.1, p.2))
          else
            (getBody lookup now quiet oids (idx + 1) rest).map
              (fun p => (⟨false, q, o, e.flags, key, e.data⟩ :: p.1, p.2))
        | _, _ => none

/-- The loop body of `realHandleGetE`: identical to `getBody` except that
a hit also carries the entry's exptime. -/
def getEBody (lookup : List Nat → Except LmdbErr (List Nat)) (now : Nat)
    (quiet : List Bool) (oids : List Nat) :
    Nat → List (List Nat) → Option (List GetEResponse × Option CommonErr)
  | _, [] => some ([], none)
  | idx, key :: rest =>
    match lookup key with
    | .error le =>
      match decode le with
      | .keyNotFound =>
        match quiet.get? idx, oids.get? idx with
        | some q, some o =>
          (getEBody lookup now quiet oids (idx + 1) rest).map
            (fun p => (⟨true, q, o, 0, 0, key, []⟩ :: p.1, p.2))
        | _, _ => none
      | de => some ([], some de)
    | .ok buf =>
      match bufToEntry buf with
      | none => none
      | some e =>
        match quiet.get? idx, oids.get? idx with
        | some q, some o =>
          if e.expired now then
            (getEBody lookup now quiet oids (idx + 1) rest).map
              (fun p => (⟨true, q, o, 0, 0, key, []⟩ :: p.1, p.2))
          else
            (getEBody lookup now quiet oids (idx + 1) rest).map
              (fun p => (⟨false, q, o, e.exptime, e.flags, key, e.data⟩ :: p.1, p.2))
        | _, _ => none

/-- The channel trace of a finished background task: every result in
order on `dataOut`, then the terminal error (if the transaction failed)
on `errorOut`, then `close(dataOut)` and `close(errorOut)`. -/
def evTrace {α : Type} (p : List α × Option CommonErr) : List (Ev α) :=
  p.1.map Ev.data ++
    (match p.2 with | some e => [Ev.err e] | none => []) ++
    [Ev.closeData, Ev.closeErr]

/-- `realHandleGet`: run the loop from index 0 and lay out the channel
events. -/
def realHandleGet (lookup : List Nat → Except LmdbErr (List Nat)) (now : Nat)
    (cmd : GetRequest) : Option (List (Ev GetResponse)) :=
  (getBody lookup now cmd.quiet cmd.oids 0 cmd.keys).map evTrace

/-- `realHandleGetE`. -/
def realHandleGetE (lookup : List Nat → Except LmdbErr (List Nat)) (now : Nat)
    (cmd : GetRequest) : Option (List (Ev GetEResponse)) :=
  (getEBody lookup now cmd.quiet cmd.oids 0 cmd.keys).map evTrace

/-- `Handler.Get` on the shared table: the background task's lookups are
`txn.Get` within one read transaction, a snapshot of `t`. -/
def Get (t : Table) (now : Nat) (cmd : GetRequest) :
    Option (List (Ev GetResponse)) :=
  realHandleGet (txnGet t) now cmd

/-- `Handler.GetE` on the shared table. -/
def GetE (t : Table) (now : Nat) (cmd : GetRequest) :
    Option (List (Ev GetEResponse)) :=
  realHandleGetE (txnGet t) now cmd

/-- One candidate of the reaper's reap phase: the per-candidate write
transaction re-fetches the record (`t.Get`), rebuilds an entry from just
the four exptime header bytes (Go panics below 4 bytes: `none`),
re-checks expiration, and deletes only when still expired.  On a failed
re-fetch or delete the transaction aborts with that error. -/
def reapCandidate (t : Table) (now : Nat) (key : List Nat) :
    Option (Table × Option CommonErr) :=
  match txnGet t key with
  | .error le => some (t, some (decode le))
  | .ok buf =>
    if 4 ≤ buf.length then
      if (Entry.mk (getUint32BE (buf.take 4)) 0 []).expired now then
        match txnDel t key with
        | .ok t2 => some (t2, none)
        | .error le => some (t, some (decode le))
      else some (t, none)
    else none

/-- The reaper's per-candidate error check, `de != nil && de !=
common.ErrKeyNotFound`: only a non-absence error aborts the sweep. -/
def reapFatal : Option CommonErr → Bool
  | none => false
  | some .keyNotFound => false
  | some _ => true

/-- A real LMDB value: a byte buffer (each element < 256) at least 8
bytes long, i.e. a full header plus payload. -/
def goodBuf (b : List Nat) : Bool :=
  decide (8 ≤ b.length) && b.all (fun x => decide (x < 256))

/-- Table invariant: every stored value is a well-formed record. -/
def wf (t : Table) : Bool :=
  t.all (fun p => goodBuf p.2)

/-- A per-key lookup outcome the batched-get loop survives: success, or
an absence error (whose translation is `keyNotFound`).  Any other error
aborts the batch. -/
def okOrNotFound (r : Except LmdbErr (List Nat)) : Bool :=
  match r with
  | .ok _ => true
  | .error le => decode le == CommonErr.keyNotFound

/-- The spec's per-key result for a batched Get: look the key up; if
absent or expired, a miss carrying the caller-supplied quiet flag and
correlation id; else a hit with the entry's flags and payload.  The
undecodable-buffer case also reports a miss; it is unreachable for values
retrieved from a well-formed table (see `stored_records_wellformed`). -/
def perKeyGet (lookup : List Nat → Except LmdbErr (List Nat)) (now : Nat)
    (key : List Nat) (q : Bool) (o : Nat) : GetResponse :=
  match lookup key with
  | .error _ => ⟨true, q, o, 0, key, []⟩
  | .ok buf =>
    match bufToEntry buf with
    | none => ⟨true, q, o, 0, key, []⟩
    | some e =>
      if e.expired now then ⟨true, q, o, 0, key, []⟩
      else ⟨false, q, o, e.flags, key, e.data⟩

/-- The spec's per-key result for a batched GetE: as `perKeyGet`, with
the hit additionally carrying the entry's expiration. -/
def perKeyGetE (lookup : List Nat → Except LmdbErr (List Nat)) (now : Nat)
    (key : List Nat) (q : Bool) (o : Nat) : GetEResponse :=
  match lookup key with
  | .error _ => ⟨true, q, o, 0, 0, key, []⟩
  | .ok buf =>
    match bufToEntry buf with
    | none => ⟨true, q, o, 0, 0, key, []⟩
    | some e =>
      if e.expired now then ⟨true, q, o, 0, 0, key, []⟩
      else ⟨false, q, o, e.exptime, e.flags, key, e.data⟩

theorem putUint32BE_len (x : Nat) : (putUint32BE x).length = 4 := rfl

theorem tget_tdel_self (t : Table) (k : List Nat) : tget (tdel t k) k = none := by
  induction t with
  | nil => rfl
  | cons p rest ih =>
    by_cases h : p.1 = k
    · have hb : (p.1 != k) = false := by simp [h]
      simpa [tdel, List.filter_cons, hb] using ih
    · have hb : (p.1 != k) = true := by simp [h]
      have hb2 : (p.1 == k) = false := by simp [h]
      simpa [tdel, List.filter_cons, hb, tget, List.find?_cons, hb2] using ih

theorem tget_tdel_ne (t : Table) (k k2 : List Nat) (h : k2 ≠ k) :
    tget (tdel t k) k2 = tget t k2 := by
  induction t with
  | nil => rfl
  | cons p rest ih =>
    by_cases hp : p.1 = k
    · have hne : (p.1 == k2) = false := by
        simp only [beq_eq_false_iff_ne, ne_eq]
        intro hc; exact h (hc ▸ hp ▸ rfl)
      have hb : (p.1 != k) = false := by simp [hp]
      simpa [tdel, List.filter_cons, hb, tget, List.find?_cons, hne] using ih
    · have hb : (p.1 != k) = true := by simp [hp]
      by_cases hq : p.1 = k2
      · have hq2 : (p.1 == k2) = true := by simp [hq]
        simp [tdel, List.filter_cons, hb, tget, List.find?_cons, hq2]
      · have hq2 : (p.1 == k2) = false := by simp [hq]
        simpa [tdel, List.filter_cons, hb, tget, List.find?_cons, hq2] using ih

theorem tget_tput_self (t : Table) (k v : List Nat) :
    tget (tput t k v) k = some v := by
  simp [tput, tget, List.find?]

theorem tget_tput_ne (t : Table) (k v k2 : List Nat) (h : k2 ≠ k) :
    tget (tput t k v) k2 = tget t k2 := by
  have h1 : (k == k2) = false := by
    simp only [beq_eq_false_iff_ne, ne_eq]
    exact fun hc => h hc.symm
  simp only [tput, tget, List.find?, h1]
  simpa [tget] using tget_tdel_ne t k k2 h

theorem wf_tdel (t : Table) (k : List Nat) (hw : wf t = true) :
    wf (tdel t k) = true := by
  simp only [wf, List.all_eq_true] at hw ⊢
  intro p hp
  exact hw p (List.mem_of_mem_filter hp)

theorem wf_tput (t : Table) (k v : List Nat) (hw : wf t = true)
    (hv : goodBuf v = true) : wf (tput t k v) = true := by
  simp only [wf, List.all_eq_true] at hw ⊢
  intro p hp
  rcases List.mem_cons.mp hp with h | h
  · simp [h, hv]
  · exact hw p (List.mem_of_mem_filter h)

theorem tget_goodBuf (t : Table) (k buf : List Nat) (hw : wf t = true)
    (h : tget t k = some buf) : goodBuf buf = true := by
  simp only [tget] at h
  cases hfind : t.find? (fun p => p.1 == k) with
  | none => simp [hfind] at h
  | some p =>
    simp only [hfind, Option.some.injEq] at h
    have hmem : p ∈ t := List.mem_of_find?_eq_some hfind
    simp only [wf, List.all_eq_true] at hw
    exact h ▸ hw p hmem

theorem goodBuf_entryToBuf (e : Entry)
    (hd : e.data.all (fun x => decide (x < 256)) = true) :
    goodBuf (entryToBuf e) = true := by
  simp only [goodBuf, Bool.and_eq_true, decide_eq_true_eq, List.all_eq_true,
    decide_eq_true_eq] at hd ⊢
  constructor
  · simp only [entryToBuf, List.length_append, putUint32BE_len]
    omega
  · intro x hx
    simp only [entryToBuf, List.mem_append] at hx
    rcases hx with hx | hx
    · simp only [putUint32BE, List.mem_cons, List.not_mem_nil, or_false] at hx
      rcases hx with h | h | h | h <;> subst h <;> omega
    · rcases hx with hx | hx
      · simp only [putUint32BE, List.mem_cons, List.not_mem_nil, or_false] at hx
        rcases hx with h | h | h | h <;> subst h <;> omega
      · exact hd x hx

theorem bufToEntry_isSome (b : List Nat) (h : 8 ≤ b.length) :
    ∃ e, bufToEntry b = some e := by
  simp [bufToEntry, h]

theorem goodBuf_header_patch (b : List Nat) (x : Nat) (h : goodBuf b = true) :
    goodBuf (putUint32BE x ++ b.drop 4) = true := by
  simp only [goodBuf, Bool.and_eq_true, decide_eq_true_eq, List.all_eq_true,
    decide_eq_true_eq] at h ⊢
  obtain ⟨hlen, hbytes⟩ := h
  constructor
  · simp only [List.length_append, putUint32BE_len, List.length_drop]
    omega
  · intro y hy
    rcases List.mem_append.mp hy with hy | hy
    · simp only [putUint32BE, List.mem_cons, List.not_mem_nil, or_false] at hy
      rcases hy with h | h | h | h <;> subst h <;> omega
    · exact hbytes y (List.mem_of_mem_drop hy)

theorem getUint32BE_putUint32BE (x : Nat) (r : List Nat) :
    getUint32BE (putUint32BE x ++ r) = x % 4294967296 := by
  simp only [putUint32BE, getUint32BE, List.cons_append, List.nil_append]
  omega

theorem addU32_lt (a b : Nat) : addU32 a b < 4294967296 :=
  Nat.mod_lt _ (by omega)

theorem getUint32BE_lt (b : List Nat)
    (h : ∀ x ∈ b, x < 256) : getUint32BE b < 4294967296 := by
  match b with
  | [] => simp [getUint32BE]
  | [a] => simp [getUint32BE]
  | [a, b1] => simp [getUint32BE]
  | [a, b1, c] => simp [getUint32BE]
  | a :: b1 :: c :: d :: rest =>
    have ha := h a (by simp)
    have hb := h b1 (by simp)
    have hc := h c (by simp)
    have hd := h d (by simp)
    simp only [getUint32BE]
    omega

theorem bufToEntry_take_append (x : Nat) (r : List Nat) :
    (putUint32BE x ++ r).take 4 = putUint32BE x := by
  have : (4 : Nat) = (putUint32BE x).length := rfl
  rw [this, List.take_left]

theorem getUint32BE_take_patch (x : Nat) (r : List Nat) :
    getUint32BE ((putUint32BE x ++ r).take 4) = x % 4294967296 := by
  rw [bufToEntry_take_append]
  have := getUint32BE_putUint32BE x []
  simpa using this

/-- C7: decoding the encoding of any entry whose `exptime` and `flags` fit
in 32 bits (as the Go `uint32` fields do) returns the same entry, for every
payload including the empty one. -/
theorem bufToEntry_entryToBuf (e : Entry)
    (hx : e.exptime < 4294967296) (hf : e.flags < 4294967296) :
    bufToEntry (entryToBuf e) = some e := by
  have hlen : (entryToBuf e).length = 8 + e.data.length := by
    simp [entryToBuf, putUint32BE]
    omega
  have htake : (entryToBuf e).take 4 = putUint32BE e.exptime := by
    simp [entryToBuf, putUint32BE]
  have hdrop4 : (entryToBuf e).drop 4 = putUint32BE e.flags ++ e.data := by
    simp [entryToBuf, putUint32BE]
  have htake2 : ((entryToBuf e).drop 4).take 4 = putUint32BE e.flags := by
    simp [hdrop4, putUint32BE]
  have hdrop8 : (entryToBuf e).drop 8 = e.data := by
    simp [entryToBuf, putUint32BE]
  simp only [bufToEntry, hlen, htake, htake2, hdrop8]
  rw [if_pos (by omega)]
  have h1 : getUint32BE (putUint32BE e.exptime) = e.exptime := by
    have := getUint32BE_putUint32BE e.exptime []
    simpa [Nat.mod_eq_of_lt hx] using this
  have h2 : getUint32BE (putUint32BE e.flags) = e.flags := by
    have := getUint32BE_putUint32BE e.flags []
    simpa [Nat.mod_eq_of_lt hf] using this
  simp [h1, h2]

/-- Witness for C7 at a concrete entry. -/
theorem bufToEntry_entryToBuf_witness :
    bufToEntry (entryToBuf ⟨4294967295, 7, [0, 255, 3]⟩) =
      some ⟨4294967295, 7, [0, 255, 3]⟩ :=
  bufToEntry_entryToBuf ⟨4294967295, 7, [0, 255, 3]⟩ (by decide) (by decide)

theorem bufToEntry_fields_lt (b : List Nat) (e : Entry) (hg : goodBuf b = true)
    (h : bufToEntry b = some e) :
    e.exptime < 4294967296 ∧ e.flags < 4294967296 := by
  simp only [goodBuf, Bool.and_eq_true, decide_eq_true_eq, List.all_eq_true,
    decide_eq_true_eq] at hg
  obtain ⟨hlen, hbytes⟩ := hg
  simp only [bufToEntry, if_pos hlen, Option.some.injEq] at h
  subst h
  constructor
  · exact getUint32BE_lt _ (fun x hx => hbytes x (List.mem_of_mem_take hx))
  · exact getUint32BE_lt _ (fun x hx =>
      hbytes x (List.mem_of_mem_drop (List.mem_of_mem_take hx)))

/-- C5: Replace on an absent key fails with `keyNotFound` and returns the
table unchanged — the write transaction aborts without creating the key. -/
theorem Replace_absent_fails_without_writing (t : Table) (now : Nat)
    (cmd : SetRequest) (h : tget t cmd.key = none) :
    Replace t now cmd = (t, some CommonErr.keyNotFound) := by
  simp [Replace, txnGet, h, decode]

/-- Witness for C5: Replace on the empty table. -/
theorem Replace_absent_fails_without_writing_witness :
    tget ([] : Table) [1] = none ∧
      Replace [] 5 ⟨[1], [2], 3, 4⟩ = ([], some CommonErr.keyNotFound) :=
  ⟨rfl, Replace_absent_fails_without_writing [] 5 ⟨[1], [2], 3, 4⟩ rfl⟩

/-- C1: evaluating `GAT` on a stored entry that is expired (exptime 5,
now 100).  The entry is deleted (the resulting table is empty, and a
subsequent `Get` on the key misses), but — because a successful delete
leaves the transaction error nil — the function falls through to the
final hit return: the response has `Miss = false` and carries the expired
entry's flags and payload, contradicting the documented miss. -/
theorem GAT_expired_deletes_but_reports_hit :
    GAT [([1], entryToBuf ⟨5, 7, [9, 8]⟩)] 100 ⟨[1], 50, 3⟩ =
      some ([], ⟨false, false, 3, 7, [1], [9, 8]⟩, none) ∧
    Get [] 100 ⟨[[1]], [3], [false]⟩ =
      some [Ev.data ⟨true, false, 3, 0, [1], []⟩, Ev.closeData, Ev.closeErr] := by
  exact ⟨rfl, rfl⟩

/-- C2 counterexample: Touch with request TTL 0 at `now = 100` on an
existing never-expiring entry stores exptime 100 (= now), not the
never-expire sentinel 0 that `compute_expiration` would give. -/
theorem Touch_ttl_zero_stores_now :
    ((Touch [([1], entryToBuf ⟨0, 5, [7]⟩)] 100 ⟨[1], 0, 0⟩).bind
        (fun r => (tget r.1 [1]).bind bufToEntry)).map Entry.exptime =
      some 100 ∧ (100 : Nat) ≠ 0 :=
  ⟨rfl, by decide⟩

/-- C2 amended: for every Touch on an existing key and every GAT on an
existing non-expired key, the newly stored expiration equals
`(now + ttl) mod 2^32` for every request TTL — including TTL 0, where it
stores `now` itself rather than the never-expire sentinel 0. -/
theorem Touch_GAT_store_now_plus_ttl (t : Table) (now : Nat)
    (tc g : GATRequest) (buft bufg : List Nat) (eg : Entry)
    (hw : wf t = true)
    (hbt : tget t tc.key = some buft)
    (hbg : tget t g.key = some bufg)
    (heg : bufToEntry bufg = some eg)
    (hne : eg.expired now = false) :
    (∃ t2, Touch t now tc = some (t2, none) ∧
      ((tget t2 tc.key).bind bufToEntry).map Entry.exptime =
        some (addU32 now tc.exptime)) ∧
    (∃ t2, ∃ resp : GetResponse, GAT t now g = some (t2, resp, none) ∧
      ((tget t2 g.key).bind bufToEntry).map Entry.exptime =
        some (addU32 now g.exptime)) := by
  have hgt : goodBuf buft = true := tget_goodBuf t tc.key buft hw hbt
  have hgg : goodBuf bufg = true := tget_goodBuf t g.key bufg hw hbg
  have hlt : 8 ≤ buft.length := by
    simp only [goodBuf, Bool.and_eq_true, decide_eq_true_eq] at hgt
    exact hgt.1
  have hlg : 8 ≤ bufg.length := by
    simp only [goodBuf, Bool.and_eq_true, decide_eq_true_eq] at hgg
    exact hgg.1
  constructor
  · refine ⟨tput t tc.key (putUint32BE (addU32 now tc.exptime) ++ buft.drop 4), ?_, ?_⟩
    · simp [Touch, txnGet, hbt, txnPut, show 4 ≤ buft.length by omega]
    · rw [tget_tput_self]
      have hlen : 8 ≤ (putUint32BE (addU32 now tc.exptime) ++ buft.drop 4).length := by
        simp only [List.length_append, putUint32BE_len, List.length_drop]
        omega
      simp [Option.some_bind, bufToEntry, if_pos hlen, getUint32BE_take_patch,
        Nat.mod_eq_of_lt (addU32_lt now tc.exptime)]
      simp only [putUint32BE_len]
      omega
  · refine ⟨tput t g.key (putUint32BE (addU32 now g.exptime) ++ bufg.drop 4),
      ⟨false, false, g.oid, eg.flags, g.key, eg.data⟩, ?_, ?_⟩
    · simp [GAT, txnGet, hbg, heg, hne, txnPut]
    · rw [tget_tput_self]
      have hlen : 8 ≤ (putUint32BE (addU32 now g.exptime) ++ bufg.drop 4).length := by
        simp only [List.length_append, putUint32BE_len, List.length_drop]
        omega
      simp [Option.some_bind, bufToEntry, if_pos hlen, getUint32BE_take_patch,
        Nat.mod_eq_of_lt (addU32_lt now g.exptime)]
      simp only [putUint32BE_len]
      omega

/-- Witness for the amended C2: one table holding a never-expiring entry
under key `[1]`; Touch with TTL 0 stores 100, GAT with TTL 50 stores 150. -/
theorem Touch_GAT_store_now_plus_ttl_witness :
    wf [([1], entryToBuf ⟨0, 5, [7]⟩)] = true ∧
    ((∃ t2, Touch [([1], entryToBuf ⟨0, 5, [7]⟩)] 100 ⟨[1], 0, 2⟩ = some (t2, none) ∧
        ((tget t2 [1]).bind bufToEntry).map Entry.exptime = some (addU32 100 0)) ∧
      (∃ t2, ∃ resp : GetResponse,
        GAT [([1], entryToBuf ⟨0, 5, [7]⟩)] 100 ⟨[1], 50, 3⟩ = some (t2, resp, none) ∧
        ((tget t2 [1]).bind bufToEntry).map Entry.exptime = some (addU32 100 50))) :=
  ⟨by decide,
    Touch_GAT_store_now_plus_ttl [([1], entryToBuf ⟨0, 5, [7]⟩)] 100
      ⟨[1], 0, 2⟩ ⟨[1], 50, 3⟩ (entryToBuf ⟨0, 5, [7]⟩) (entryToBuf ⟨0, 5, [7]⟩)
      ⟨0, 5, [7]⟩ (by decide) rfl rfl (by decide) (by decide)⟩

theorem bufToEntry_data_bytes (b : List Nat) (e : Entry) (hg : goodBuf b = true)
    (h : bufToEntry b = some e) :
    e.data.all (fun x => decide (x < 256)) = true := by
  simp only [goodBuf, Bool.and_eq_true, decide_eq_true_eq, List.all_eq_true,
    decide_eq_true_eq] at hg
  obtain ⟨hlen, hbytes⟩ := hg
  simp only [bufToEntry, if_pos hlen, Option.some.injEq] at h
  subst h
  simp only [List.all_eq_true, decide_eq_true_eq]
  intro x hx
  exact hbytes x (List.mem_of_mem_drop hx)

/-- C6: Append concatenates the request bytes after the stored payload
and Prepend before it, both preserving the stored expiration and flags
exactly; on an absent key both fail with `keyNotFound` and leave the
table unchanged. -/
theorem Append_Prepend_contract (t : Table) (cmd : SetRequest)
    (hw : wf t = true) :
    (∀ buf prev, tget t cmd.key = some buf → bufToEntry buf = some prev →
      (∃ t2, Append t cmd = some (t2, none) ∧
        (tget t2 cmd.key).bind bufToEntry =
          some ⟨prev.exptime, prev.flags, prev.data ++ cmd.data⟩) ∧
      (∃ t2, Prepend t cmd = some (t2, none) ∧
        (tget t2 cmd.key).bind bufToEntry =
          some ⟨prev.exptime, prev.flags, cmd.data ++ prev.data⟩)) ∧
    (tget t cmd.key = none →
      Append t cmd = some (t, some CommonErr.keyNotFound) ∧
      Prepend t cmd = some (t, some CommonErr.keyNotFound)) := by
  constructor
  · intro buf prev hbuf hdec
    have hg := tget_goodBuf t cmd.key buf hw hbuf
    have hlt := bufToEntry_fields_lt buf prev hg hdec
    constructor
    · refine ⟨tput t cmd.key
        (entryToBuf ⟨prev.exptime, prev.flags, prev.data ++ cmd.data⟩), ?_, ?_⟩
      · simp [Append, txnGet, hbuf, hdec, txnPut]
      · rw [tget_tput_self, Option.some_bind]
        exact bufToEntry_entryToBuf _ hlt.1 hlt.2
    · refine ⟨tput t cmd.key
        (entryToBuf ⟨prev.exptime, prev.flags, cmd.data ++ prev.data⟩), ?_, ?_⟩
      · simp [Prepend, txnGet, hbuf, hdec, txnPut]
      · rw [tget_tput_self, Option.some_bind]
        exact bufToEntry_entryToBuf _ hlt.1 hlt.2
  · intro habs
    constructor
    · simp [Append, txnGet, habs, decode]
    · simp [Prepend, txnGet, habs, decode]

/-- Witness for C6 on a one-entry table. -/
theorem Append_Prepend_contract_witness :
    wf [([1], entryToBuf ⟨0, 5, [10, 11]⟩)] = true ∧
    ((∀ buf prev,
        tget [([1], entryToBuf ⟨0, 5, [10, 11]⟩)] [1] = some buf →
        bufToEntry buf = some prev →
        (∃ t2, Append [([1], entryToBuf ⟨0, 5, [10, 11]⟩)] ⟨[1], [12], 9, 0⟩ =
            some (t2, none) ∧
          (tget t2 [1]).bind bufToEntry =
            some ⟨prev.exptime, prev.flags, prev.data ++ [12]⟩) ∧
        (∃ t2, Prepend [([1], entryToBuf ⟨0, 5, [10, 11]⟩)] ⟨[1], [12], 9, 0⟩ =
            some (t2, none) ∧
          (tget t2 [1]).bind bufToEntry =
            some ⟨prev.exptime, prev.flags, [12] ++ prev.data⟩)) ∧
      (tget [([1], entryToBuf ⟨0, 5, [10, 11]⟩)] [1] = none →
        Append [([1], entryToBuf ⟨0, 5, [10, 11]⟩)] ⟨[1], [12], 9, 0⟩ =
          some ([([1], entryToBuf ⟨0, 5, [10, 11]⟩)], some CommonErr.keyNotFound) ∧
        Prepend [([1], entryToBuf ⟨0, 5, [10, 11]⟩)] ⟨[1], [12], 9, 0⟩ =
          some ([([1], entryToBuf ⟨0, 5, [10, 11]⟩)], some CommonErr.keyNotFound))) :=
  ⟨by decide,
    Append_Prepend_contract [([1], entryToBuf ⟨0, 5, [10, 11]⟩)]
      ⟨[1], [12], 9, 0⟩ (by decide)⟩

/-- C8: every value stored by any write operation is an 8-byte header
followed by the payload, so the invariant "every record in the table is a
byte buffer at least 8 bytes long" (`wf`) is preserved by Set, Add,
Replace, Append, Prepend, Touch and GAT; on a well-formed table the
partial operations never hit a Go panic (`isSome`); and `bufToEntry`
succeeds on every value retrieved from the table, so its short-input
failure case is unreachable at its call sites. -/
theorem stored_records_wellformed (t : Table) (now : Nat) (s : SetRequest)
    (tc g : GATRequest) (hw : wf t = true)
    (hd : s.data.all (fun x => decide (x < 256)) = true) :
    (∀ e : Entry, 8 ≤ (entryToBuf e).length) ∧
    wf (Set t now s).1 = true ∧
    wf (Add t now s).1 = true ∧
    wf (Replace t now s).1 = true ∧
    (Append t s).isSome = true ∧
    (∀ r, Append t s = some r → wf r.1 = true) ∧
    (Prepend t s).isSome = true ∧
    (∀ r, Prepend t s = some r → wf r.1 = true) ∧
    (Touch t now tc).isSome = true ∧
    (∀ r, Touch t now tc = some r → wf r.1 = true) ∧
    (GAT t now g).isSome = true ∧
    (∀ r, GAT t now g = some r → wf r.1 = true) ∧
    (∀ k buf, tget t k = some buf → ∃ e, bufToEntry buf = some e) := by
  have hlen8 : ∀ e : Entry, 8 ≤ (entryToBuf e).length := by
    intro e
    simp only [entryToBuf, List.length_append, putUint32BE_len]
    omega
  have hSet : wf (Set t now s).1 = true := by
    have heq : Set t now s =
        (tput t s.key (entryToBuf ⟨if 0 < s.exptime then addU32 now s.exptime
          else 0, s.flags, s.data⟩), none) := by
      simp [Set, txnPut]
    rw [heq]
    exact wf_tput _ _ _ hw (goodBuf_entryToBuf _ hd)
  have hAdd : wf (Add t now s).1 = true := by
    by_cases hex : (tget t s.key).isSome
    · have heq : Add t now s = (t, some (decode LmdbErr.keyExist)) := by
        simp [Add, txnPut, hex]
      rw [heq]
      exact hw
    · have heq : Add t now s =
          (tput t s.key (entryToBuf ⟨if 0 < s.exptime then addU32 now s.exptime
            else 0, s.flags, s.data⟩), none) := by
        simp [Add, txnPut, hex]
      rw [heq]
      exact wf_tput _ _ _ hw (goodBuf_entryToBuf _ hd)
  have hRepl : wf (Replace t now s).1 = true := by
    cases hge : tget t s.key with
    | none =>
      have heq : Replace t now s = (t, some (decode LmdbErr.notFound)) := by
        simp [Replace, txnGet, hge]
      rw [heq]
      exact hw
    | some buf =>
      have heq : Replace t now s =
          (tput t s.key (entryToBuf ⟨if 0 < s.exptime then addU32 now s.exptime
            else 0, s.flags, s.data⟩), none) := by
        simp [Replace, txnGet, hge, txnPut]
      rw [heq]
      exact wf_tput _ _ _ hw (goodBuf_entryToBuf _ hd)
  have hApp : (Append t s).isSome = true ∧
      ∀ r, Append t s = some r → wf r.1 = true := by
    cases hge : tget t s.key with
    | none =>
      have heq : Append t s = some (t, some (decode LmdbErr.notFound)) := by
        simp [Append, txnGet, hge]
      refine ⟨by simp [heq], ?_⟩
      intro r hr
      rw [heq, Option.some.injEq] at hr
      rw [← hr]
      exact hw
    | some buf =>
      have hg := tget_goodBuf t s.key buf hw hge
      have hl : 8 ≤ buf.length := by
        simp only [goodBuf, Bool.and_eq_true, decide_eq_true_eq] at hg
        exact hg.1
      obtain ⟨prev, hdec⟩ := bufToEntry_isSome buf hl
      have hdb := bufToEntry_data_bytes buf prev hg hdec
      have hgd : ((prev.data ++ s.data).all (fun x => decide (x < 256))) = true := by
        rw [List.all_append, hdb, hd]
        rfl
      have heq : Append t s = some (tput t s.key
          (entryToBuf ⟨prev.exptime, prev.flags, prev.data ++ s.data⟩), none) := by
        simp [Append, txnGet, hge, hdec, txnPut]
      refine ⟨by simp [heq], ?_⟩
      intro r hr
      rw [heq, Option.some.injEq] at hr
      rw [← hr]
      exact wf_tput _ _ _ hw (goodBuf_entryToBuf
        ⟨prev.exptime, prev.flags, prev.data ++ s.data⟩ hgd)
  have hPre : (Prepend t s).isSome = true ∧
      ∀ r, Prepend t s = some r → wf r.1 = true := by
    cases hge : tget t s.key with
    | none =>
      have heq : Prepend t s = some (t, some (decode LmdbErr.notFound)) := by
        simp [Prepend, txnGet, hge]
      refine ⟨by simp [heq], ?_⟩
      intro r hr
      rw [heq, Option.some.injEq] at hr
      rw [← hr]
      exact hw
    | some buf =>
      have hg := tget_goodBuf t s.key buf hw hge
      have hl : 8 ≤ buf.length := by
        simp only [goodBuf, Bool.and_eq_true, decide_eq_true_eq] at hg
        exact hg.1
      obtain ⟨prev, hdec⟩ := bufToEntry_isSome buf hl
      have hdb := bufToEntry_data_bytes buf prev hg hdec
      have hgd : ((s.data ++ prev.data).all (fun x => decide (x < 256))) = true := by
        rw [List.all_append, hdb, hd]
        rfl
      have heq : Prepend t s = some (tput t s.key
          (entryToBuf ⟨prev.exptime, prev.flags, s.data ++ prev.data⟩), none) := by
        simp [Prepend, txnGet, hge, hdec, txnPut]
      refine ⟨by simp [heq], ?_⟩
      intro r hr
      rw [heq, Option.some.injEq] at hr
      rw [← hr]
      exact wf_tput _ _ _ hw (goodBuf_entryToBuf
        ⟨prev.exptime, prev.flags, s.data ++ prev.data⟩ hgd)
  have hTouch : (Touch t now tc).isSome = true ∧
      ∀ r, Touch t now tc = some r → wf r.1 = true := by
    cases hge : tget t tc.key with
    | none =>
      have heq : Touch t now tc = some (t, some (decode LmdbErr.notFound)) := by
        simp [Touch, txnGet, hge]
      refine ⟨by simp [heq], ?_⟩
      intro r hr
      rw [heq, Option.some.injEq] at hr
      rw [← hr]
      exact hw
    | some buf =>
      have hg := tget_goodBuf t tc.key buf hw hge
      have hl : 8 ≤ buf.length := by
        simp only [goodBuf, Bool.and_eq_true, decide_eq_true_eq] at hg
        exact hg.1
      have h4 : 4 ≤ buf.length := by omega
      have heq : Touch t now tc = some (tput t tc.key
          (putUint32BE (addU32 now tc.exptime) ++ buf.drop 4), none) := by
        simp [Touch, txnGet, hge, h4, txnPut]
      refine ⟨by simp [heq], ?_⟩
      intro r hr
      rw [heq, Option.some.injEq] at hr
      rw [← hr]
      exact wf_tput _ _ _ hw (goodBuf_header_patch buf _ hg)
  have hGAT : (GAT t now g).isSome = true ∧
      ∀ r, GAT t now g = some r → wf r.1 = true := by
    cases hge : tget t g.key with
    | none =>
      have heq : GAT t now g =
          some (t, ⟨true, false, g.oid, 0, g.key, []⟩, none) := by
        simp [GAT, txnGet, hge, decode]
      refine ⟨by simp [heq], ?_⟩
      intro r hr
      rw [heq, Option.some.injEq] at hr
      rw [← hr]
      exact hw
    | some buf =>
      have hg := tget_goodBuf t g.key buf hw hge
      have hl : 8 ≤ buf.length := by
        simp only [goodBuf, Bool.and_eq_true, decide_eq_true_eq] at hg
        exact hg.1
      obtain ⟨e, hdec⟩ := bufToEntry_isSome buf hl
      by_cases hexp : e.expired now = true
      · have heq : GAT t now g = some (tdel t g.key,
            ⟨false, false, g.oid, e.flags, g.key, e.data⟩, none) := by
          simp [GAT, txnGet, hge, hdec, hexp, txnDel]
        refine ⟨by simp [heq], ?_⟩
        intro r hr
        rw [heq, Option.some.injEq] at hr
        rw [← hr]
        exact wf_tdel t g.key hw
      · have hexp2 : e.expired now = false := by simpa using hexp
        have heq : GAT t now g = some (tput t g.key
            (putUint32BE (addU32 now g.exptime) ++ buf.drop 4),
            ⟨false, false, g.oid, e.flags, g.key, e.data⟩, none) := by
          simp [GAT, txnGet, hge, hdec, hexp2, txnPut]
        refine ⟨by simp [heq], ?_⟩
        intro r hr
        rw [heq, Option.some.injEq] at hr
        rw [← hr]
        exact wf_tput _ _ _ hw (goodBuf_header_patch buf _ hg)
  have hDec : ∀ k buf, tget t k = some buf → ∃ e, bufToEntry buf = some e := by
    intro k buf hk
    have hg := tget_goodBuf t k buf hw hk
    have hl : 8 ≤ buf.length := by
      simp only [goodBuf, Bool.and_eq_true, decide_eq_true_eq] at hg
      exact hg.1
    exact bufToEntry_isSome buf hl
  exact ⟨hlen8, hSet, hAdd, hRepl, hApp.1, hApp.2, hPre.1, hPre.2,
    hTouch.1, hTouch.2, hGAT.1, hGAT.2, hDec⟩

/-- Witness for C8 on a one-entry table. -/
theorem stored_records_wellformed_witness :
    (∀ e : Entry, 8 ≤ (entryToBuf e).length) ∧
    wf (Set [([1], entryToBuf ⟨0, 5, [10]⟩)] 100 ⟨[2], [20], 3, 0⟩).1 = true ∧
    wf (Add [([1], entryToBuf ⟨0, 5, [10]⟩)] 100 ⟨[2], [20], 3, 0⟩).1 = true ∧
    wf (Replace [([1], entryToBuf ⟨0, 5, [10]⟩)] 100 ⟨[2], [20], 3, 0⟩).1 = true ∧
    (Append [([1], entryToBuf ⟨0, 5, [10]⟩)] ⟨[2], [20], 3, 0⟩).isSome = true ∧
    (∀ r, Append [([1], entryToBuf ⟨0, 5, [10]⟩)] ⟨[2], [20], 3, 0⟩ = some r →
      wf r.1 = true) ∧
    (Prepend [([1], entryToBuf ⟨0, 5, [10]⟩)] ⟨[2], [20], 3, 0⟩).isSome = true ∧
    (∀ r, Prepend [([1], entryToBuf ⟨0, 5, [10]⟩)] ⟨[2], [20], 3, 0⟩ = some r →
      wf r.1 = true) ∧
    (Touch [([1], entryToBuf ⟨0, 5, [10]⟩)] 100 ⟨[1], 7, 0⟩).isSome = true ∧
    (∀ r, Touch [([1], entryToBuf ⟨0, 5, [10]⟩)] 100 ⟨[1], 7, 0⟩ = some r →
      wf r.1 = true) ∧
    (GAT [([1], entryToBuf ⟨0, 5, [10]⟩)] 100 ⟨[1], 7, 1⟩).isSome = true ∧
    (∀ r, GAT [([1], entryToBuf ⟨0, 5, [10]⟩)] 100 ⟨[1], 7, 1⟩ = some r →
      wf r.1 = true) ∧
    (∀ k buf, tget [([1], entryToBuf ⟨0, 5, [10]⟩)] k = some buf →
      ∃ e, bufToEntry buf = some e) :=
  stored_records_wellformed [([1], entryToBuf ⟨0, 5, [10]⟩)] 100
    ⟨[2], [20], 3, 0⟩ ⟨[1], 7, 0⟩ ⟨[1], 7, 1⟩ (by decide) (by decide)

/-- C9: the reaper's per-candidate write transaction re-fetches the
record and re-checks expiration against the header bytes.  An absent
candidate (deleted between the scan and reap phases) yields
`keyNotFound`, which the sweep treats as success (`reapFatal = false`)
with the table untouched; a present candidate is deleted exactly when the
re-fetched header is still expired, and left untouched otherwise. -/
theorem reapCandidate_recheck (t : Table) (now : Nat) (key : List Nat)
    (hw : wf t = true) :
    (tget t key = none →
      reapCandidate t now key = some (t, some CommonErr.keyNotFound) ∧
      reapFatal (some CommonErr.keyNotFound) = false) ∧
    (∀ buf, tget t key = some buf →
      ((Entry.mk (getUint32BE (buf.take 4)) 0 []).expired now = true →
        reapCandidate t now key = some (tdel t key, none) ∧
        tget (tdel t key) key = none) ∧
      ((Entry.mk (getUint32BE (buf.take 4)) 0 []).expired now = false →
        reapCandidate t now key = some (t, none))) := by
  constructor
  · intro habs
    refine ⟨?_, rfl⟩
    simp [reapCandidate, txnGet, habs, decode]
  · intro buf hbuf
    have hg := tget_goodBuf t key buf hw hbuf
    have h4 : 4 ≤ buf.length := by
      simp only [goodBuf, Bool.and_eq_true, decide_eq_true_eq] at hg
      omega
    constructor
    · intro hexp
      refine ⟨?_, tget_tdel_self t key⟩
      simp [reapCandidate, txnGet, hbuf, h4, hexp, txnDel]
    · intro hexp
      simp [reapCandidate, txnGet, hbuf, h4, hexp]

/-- Witness for C9 on a one-entry table holding an expired record. -/
theorem reapCandidate_recheck_witness :
    (tget [([1], entryToBuf ⟨5, 0, [9]⟩)] [1] = none →
      reapCandidate [([1], entryToBuf ⟨5, 0, [9]⟩)] 100 [1] =
        some ([([1], entryToBuf ⟨5, 0, [9]⟩)], some CommonErr.keyNotFound) ∧
      reapFatal (some CommonErr.keyNotFound) = false) ∧
    (∀ buf, tget [([1], entryToBuf ⟨5, 0, [9]⟩)] [1] = some buf →
      ((Entry.mk (getUint32BE (buf.take 4)) 0 []).expired 100 = true →
        reapCandidate [([1], entryToBuf ⟨5, 0, [9]⟩)] 100 [1] =
          some (tdel [([1], entryToBuf ⟨5, 0, [9]⟩)] [1], none) ∧
        tget (tdel [([1], entryToBuf ⟨5, 0, [9]⟩)] [1]) [1] = none) ∧
      ((Entry.mk (getUint32BE (buf.take 4)) 0 []).expired 100 = false →
        reapCandidate [([1], entryToBuf ⟨5, 0, [9]⟩)] 100 [1] =
          some ([([1], entryToBuf ⟨5, 0, [9]⟩)], none))) :=
  reapCandidate_recheck [([1], entryToBuf ⟨5, 0, [9]⟩)] 100 [1] (by decide)

theorem getBody_all_ok (lookup : List Nat → Except LmdbErr (List Nat))
    (now : Nat) (keys : List (List Nat)) :
    ∀ (quiet : List Bool) (oids : List Nat) (idx : Nat),
    (∀ k ∈ keys, okOrNotFound (lookup k) = true) →
    (∀ k buf, lookup k = .ok buf → 8 ≤ buf.length) →
    idx + keys.length ≤ quiet.length →
    idx + keys.length ≤ oids.length →
    getBody lookup now quiet oids idx keys =
      some ((keys.zip ((quiet.drop idx).zip (oids.drop idx))).map
        (fun x => perKeyGet lookup now x.1 x.2.1 x.2.2), none) := by
  induction keys with
  | nil =>
    intro quiet oids idx _ _ _ _
    simp [getBody]
  | cons key rest ih =>
    intro quiet oids idx hok hbuf hq ho
    simp only [List.length_cons] at hq ho
    have hidxq : idx < quiet.length := by omega
    have hidxo : idx < oids.length := by omega
    have hgq : quiet.get? idx = some quiet[idx] := by
      simp [List.get?_eq_getElem?, List.getElem?_eq_getElem hidxq]
    have hgo : oids.get? idx = some oids[idx] := by
      simp [List.get?_eq_getElem?, List.getElem?_eq_getElem hidxo]
    have hdq : quiet.drop idx = quiet[idx] :: quiet.drop (idx + 1) :=
      List.drop_eq_getElem_cons hidxq
    have hdo : oids.drop idx = oids[idx] :: oids.drop (idx + 1) :=
      List.drop_eq_getElem_cons hidxo
    have hrest := ih quiet oids (idx + 1)
      (fun k hk => hok k (List.mem_cons_of_mem _ hk)) hbuf (by omega) (by omega)
    have hokk := hok key (List.mem_cons_self _ _)
    rw [hdq, hdo, List.zip_cons_cons, List.zip_cons_cons, List.map_cons]
    cases hlk : lookup key with
    | error le =>
      have hdec : decode le = CommonErr.keyNotFound := by
        simp only [okOrNotFound, hlk, beq_iff_eq] at hokk
        exact hokk
      simp only [getBody, hlk, hdec, hgq, hgo, hrest]
      simp [perKeyGet, hlk]
    | ok buf =>
      have hl := hbuf key buf hlk
      obtain ⟨e, hdece⟩ := bufToEntry_isSome buf hl
      by_cases hexp : e.expired now = true
      · simp only [getBody, hlk, hdece, hgq, hgo, hexp, hrest]
        simp [perKeyGet, hlk, hdece, hexp]
      · have hexp2 : e.expired now = false := by simpa using hexp
        simp only [getBody, hlk, hdece, hgq, hgo, hexp2, hrest]
        simp [perKeyGet, hlk, hdece, hexp2]

theorem getEBody_all_ok (lookup : List Nat → Except LmdbErr (List Nat))
    (now : Nat) (keys : List (List Nat)) :
    ∀ (quiet : List Bool) (oids : List Nat) (idx : Nat),
    (∀ k ∈ keys, okOrNotFound (lookup k) = true) →
    (∀ k buf, lookup k = .ok buf → 8 ≤ buf.length) →
    idx + keys.length ≤ quiet.length →
    idx + keys.length ≤ oids.length →
    getEBody lookup now quiet oids idx keys =
      some ((keys.zip ((quiet.drop idx).zip (oids.drop idx))).map
        (fun x => perKeyGetE lookup now x.1 x.2.1 x.2.2), none) := by
  induction keys with
  | nil =>
    intro quiet oids idx _ _ _ _
    simp [getEBody]
  | cons key rest ih =>
    intro quiet oids idx hok hbuf hq ho
    simp only [List.length_cons] at hq ho
    have hidxq : idx < quiet.length := by omega
    have hidxo : idx < oids.length := by omega
    have hgq : quiet.get? idx = some quiet[idx] := by
      simp [List.get?_eq_getElem?, List.getElem?_eq_getElem hidxq]
    have hgo : oids.get? idx = some oids[idx] := by
      simp [List.get?_eq_getElem?, List.getElem?_eq_getElem hidxo]
    have hdq : quiet.drop idx = quiet[idx] :: quiet.drop (idx + 1) :=
      List.drop_eq_getElem_cons hidxq
    have hdo : oids.drop idx = oids[idx] :: oids.drop (idx + 1) :=
      List.drop_eq_getElem_cons hidxo
    have hrest := ih quiet oids (idx + 1)
      (fun k hk => hok k (List.mem_cons_of_mem _ hk)) hbuf (by omega) (by omega)
    have hokk := hok key (List.mem_cons_self _ _)
    rw [hdq, hdo, List.zip_cons_cons, List.zip_cons_cons, List.map_cons]
    cases hlk : lookup key with
    | error le =>
      have hdec : decode le = CommonErr.keyNotFound := by
        simp only [okOrNotFound, hlk, beq_iff_eq] at hokk
        exact hokk
      simp only [getEBody, hlk, hdec, hgq, hgo, hrest]
      simp [perKeyGetE, hlk]
    | ok buf =>
      have hl := hbuf key buf hlk
      obtain ⟨e, hdece⟩ := bufToEntry_isSome buf hl
      by_cases hexp : e.expired now = true
      · simp only [getEBody, hlk, hdece, hgq, hgo, hexp, hrest]
        simp [perKeyGetE, hlk, hdece, hexp]
      · have hexp2 : e.expired now = false := by simpa using hexp
        simp only [getEBody, hlk, hdece, hgq, hgo, hexp2, hrest]
        simp [perKeyGetE, hlk, hdece, hexp2]

theorem getBody_first_err (lookup : List Nat → Except LmdbErr (List Nat))
    (now : Nat) (pre : List (List Nat)) :
    ∀ (k : List Nat) (post : List (List Nat)) (quiet : List Bool)
      (oids : List Nat) (idx : Nat) (er : LmdbErr),
    (∀ k2 ∈ pre, okOrNotFound (lookup k2) = true) →
    (∀ k2 buf, lookup k2 = .ok buf → 8 ≤ buf.length) →
    lookup k = .error er →
    decode er ≠ CommonErr.keyNotFound →
    idx + pre.length ≤ quiet.length →
    idx + pre.length ≤ oids.length →
    getBody lookup now quiet oids idx (pre ++ k :: post) =
      some ((pre.zip ((quiet.drop idx).zip (oids.drop idx))).map
        (fun x => perKeyGet lookup now x.1 x.2.1 x.2.2), some (decode er)) := by
  induction pre with
  | nil =>
    intro k post quiet oids idx er _ _ hlk hne _ _
    cases hde : decode er with
    | keyNotFound => exact absurd hde hne
    | keyExists => simp [getBody, hlk, hde]
    | passthrough e2 => simp [getBody, hlk, hde]
  | cons key rest ih =>
    intro k post quiet oids idx er hok hbuf hlk hne hq ho
    simp only [List.length_cons] at hq ho
    have hidxq : idx < quiet.length := by omega
    have hidxo : idx < oids.length := by omega
    have hgq : quiet.get? idx = some quiet[idx] := by
      simp [List.get?_eq_getElem?, List.getElem?_eq_getElem hidxq]
    have hgo : oids.get? idx = some oids[idx] := by
      simp [List.get?_eq_getElem?, List.getElem?_eq_getElem hidxo]
    have hdq : quiet.drop idx = quiet[idx] :: quiet.drop (idx + 1) :=
      List.drop_eq_getElem_cons hidxq
    have hdo : oids.drop idx = oids[idx] :: oids.drop (idx + 1) :=
      List.drop_eq_getElem_cons hidxo
    have hrest := ih k post quiet oids (idx + 1) er
      (fun k2 hk => hok k2 (List.mem_cons_of_mem _ hk)) hbuf hlk hne
      (by omega) (by omega)
    have hokk := hok key (List.mem_cons_self _ _)
    rw [hdq, hdo, List.zip_cons_cons, List.zip_cons_cons, List.map_cons,
      List.cons_append]
    cases hlk2 : lookup key with
    | error le =>
      have hdec : decode le = CommonErr.keyNotFound := by
        simp only [okOrNotFound, hlk2, beq_iff_eq] at hokk
        exact hokk
      simp only [getBody, hlk2, hdec, hgq, hgo, hrest]
      simp [perKeyGet, hlk2]
    | ok buf =>
      have hl := hbuf key buf hlk2
      obtain ⟨e, hdece⟩ := bufToEntry_isSome buf hl
      by_cases hexp : e.expired now = true
      · simp only [getBody, hlk2, hdece, hgq, hgo, hexp, hrest]
        simp [perKeyGet, hlk2, hdece, hexp]
      · have hexp2 : e.expired now = false := by simpa using hexp
        simp only [getBody, hlk2, hdece, hgq, hgo, hexp2, hrest]
        simp [perKeyGet, hlk2, hdece, hexp2]

theorem getEBody_first_err (lookup : List Nat → Except LmdbErr (List Nat))
    (now : Nat) (pre : List (List Nat)) :
    ∀ (k : List Nat) (post : List (List Nat)) (quiet : List Bool)
      (oids : List Nat) (idx : Nat) (er : LmdbErr),
    (∀ k2 ∈ pre, okOrNotFound (lookup k2) = true) →
    (∀ k2 buf, lookup k2 = .ok buf → 8 ≤ buf.length) →
    lookup k = .error er →
    decode er ≠ CommonErr.keyNotFound →
    idx + pre.length ≤ quiet.length →
    idx + pre.length ≤ oids.length →
    getEBody lookup now quiet oids idx (pre ++ k :: post) =
      some ((pre.zip ((quiet.drop idx).zip (oids.drop idx))).map
        (fun x => perKeyGetE lookup now x.1 x.2.1 x.2.2), some (decode er)) := by
  induction pre with
  | nil =>
    intro k post quiet oids idx er _ _ hlk hne _ _
    cases hde : decode er with
    | keyNotFound => exact absurd hde hne
    | keyExists => simp [getEBody, hlk, hde]
    | passthrough e2 => simp [getEBody, hlk, hde]
  | cons key rest ih =>
    intro k post quiet oids idx er hok hbuf hlk hne hq ho
    simp only [List.length_cons] at hq ho
    have hidxq : idx < quiet.length := by omega
    have hidxo : idx < oids.length := by omega
    have hgq : quiet.get? idx = some quiet[idx] := by
      simp [List.get?_eq_getElem?, List.getElem?_eq_getElem hidxq]
    have hgo : oids.get? idx = some oids[idx] := by
      simp [List.get?_eq_getElem?, List.getElem?_eq_getElem hidxo]
    have hdq : quiet.drop idx = quiet[idx] :: quiet.drop (idx + 1) :=
      List.drop_eq_getElem_cons hidxq
    have hdo : oids.drop idx = oids[idx] :: oids.drop (idx + 1) :=
      List.drop_eq_getElem_cons hidxo
    have hrest := ih k post quiet oids (idx + 1) er
      (fun k2 hk => hok k2 (List.mem_cons_of_mem _ hk)) hbuf hlk hne
      (by omega) (by omega)
    have hokk := hok key (List.mem_cons_self _ _)
    rw [hdq, hdo, List.zip_cons_cons, List.zip_cons_cons, List.map_cons,
      List.cons_append]
    cases hlk2 : lookup key with
    | error le =>
      have hdec : decode le = CommonErr.keyNotFound := by
        simp only [okOrNotFound, hlk2, beq_iff_eq] at hokk
        exact hokk
      simp only [getEBody, hlk2, hdec, hgq, hgo, hrest]
      simp [perKeyGetE, hlk2]
    | ok buf =>
      have hl := hbuf key buf hlk2
      obtain ⟨e, hdece⟩ := bufToEntry_isSome buf hl
      by_cases hexp : e.expired now = true
      · simp only [getEBody, hlk2, hdece, hgq, hgo, hexp, hrest]
        simp [perKeyGetE, hlk2, hdece, hexp]
      · have hexp2 : e.expired now = false := by simpa using hexp
        simp only [getEBody, hlk2, hdece, hgq, hgo, hexp2, hrest]
        simp [perKeyGetE, hlk2, hdece, hexp2]

theorem okOrNotFound_txnGet (t : Table) (k : List Nat) :
    okOrNotFound (txnGet t k) = true := by
  simp only [txnGet]
  cases tget t k with
  | some v => rfl
  | none => rfl

theorem txnGet_len (t : Table) (hw : wf t = true) :
    ∀ k buf, txnGet t k = .ok buf → 8 ≤ buf.length := by
  intro k buf h
  simp only [txnGet] at h
  cases hg : tget t k with
  | none => rw [hg] at h; cases h
  | some v =>
    rw [hg] at h
    have hvb : v = buf := by injection h
    subst hvb
    have := tget_goodBuf t k v hw hg
    simp only [goodBuf, Bool.and_eq_true, decide_eq_true_eq] at this
    exact this.1

/-- C3: a batched Get (and GetE) over a well-formed table, with quiet and
correlation-id lists at least as long as the key list, emits exactly one
result per key and in request-key order: a miss carrying the key's
caller-supplied quiet flag and correlation id when the key is absent or
its entry is expired, else a hit carrying the entry's flags and payload
(for GetE additionally its expiration); the trace then closes both
channels with no error event. -/
theorem batched_get_inorder (t : Table) (now : Nat) (cmd : GetRequest)
    (hw : wf t = true)
    (hq : cmd.keys.length ≤ cmd.quiet.length)
    (ho : cmd.keys.length ≤ cmd.oids.length) :
    Get t now cmd = some (((cmd.keys.zip (cmd.quiet.zip cmd.oids)).map
        (fun x => perKeyGet (txnGet t) now x.1 x.2.1 x.2.2)).map Ev.data ++
      [Ev.closeData, Ev.closeErr]) ∧
    GetE t now cmd = some (((cmd.keys.zip (cmd.quiet.zip cmd.oids)).map
        (fun x => perKeyGetE (txnGet t) now x.1 x.2.1 x.2.2)).map Ev.data ++
      [Ev.closeData, Ev.closeErr]) := by
  have h1 := getBody_all_ok (txnGet t) now cmd.keys cmd.quiet cmd.oids 0
    (fun k _ => okOrNotFound_txnGet t k) (txnGet_len t hw) (by omega) (by omega)
  have h2 := getEBody_all_ok (txnGet t) now cmd.keys cmd.quiet cmd.oids 0
    (fun k _ => okOrNotFound_txnGet t k) (txnGet_len t hw) (by omega) (by omega)
  constructor
  · simp [Get, realHandleGet, h1, evTrace]
  · simp [GetE, realHandleGetE, h2, evTrace]

/-- Witness for C3: the spec's own example — keys A, B, C with only B
present gives miss, hit, miss in order, each with its correlation id. -/
theorem batched_get_inorder_witness :
    Get [([2], entryToBuf ⟨0, 7, [42]⟩)] 100
        ⟨[[1], [2], [3]], [10, 20, 30], [false, false, false]⟩ =
      some ((([[1], [2], [3]].zip
          ([false, false, false].zip [10, 20, 30])).map
        (fun x => perKeyGet (txnGet [([2], entryToBuf ⟨0, 7, [42]⟩)]) 100
          x.1 x.2.1 x.2.2)).map Ev.data ++ [Ev.closeData, Ev.closeErr]) ∧
    GetE [([2], entryToBuf ⟨0, 7, [42]⟩)] 100
        ⟨[[1], [2], [3]], [10, 20, 30], [false, false, false]⟩ =
      some ((([[1], [2], [3]].zip
          ([false, false, false].zip [10, 20, 30])).map
        (fun x => perKeyGetE (txnGet [([2], entryToBuf ⟨0, 7, [42]⟩)]) 100
          x.1 x.2.1 x.2.2)).map Ev.data ++ [Ev.closeData, Ev.closeErr]) :=
  batched_get_inorder [([2], entryToBuf ⟨0, 7, [42]⟩)] 100
    ⟨[[1], [2], [3]], [10, 20, 30], [false, false, false]⟩
    (by decide) (by decide) (by decide)

/-- C10: under the precondition that the quiet and correlation-id lists
are at least as long as the key list, the batched handlers index those
lists in bounds for every key processed: on a well-formed table the
embedding is total (`isSome`); a request violating the precondition has
no defined result (the Go code panics). -/
theorem batched_get_total (t : Table) (now : Nat) (cmd : GetRequest)
    (hw : wf t = true)
    (hq : cmd.keys.length ≤ cmd.quiet.length)
    (ho : cmd.keys.length ≤ cmd.oids.length) :
    (Get t now cmd).isSome = true ∧ (GetE t now cmd).isSome = true := by
  have h1 := getBody_all_ok (txnGet t) now cmd.keys cmd.quiet cmd.oids 0
    (fun k _ => okOrNotFound_txnGet t k) (txnGet_len t hw) (by omega) (by omega)
  have h2 := getEBody_all_ok (txnGet t) now cmd.keys cmd.quiet cmd.oids 0
    (fun k _ => okOrNotFound_txnGet t k) (txnGet_len t hw) (by omega) (by omega)
  constructor
  · simp [Get, realHandleGet, h1]
  · simp [GetE, realHandleGetE, h2]

/-- Witness for C10 on a two-key request over a one-entry table. -/
theorem batched_get_total_witness :
    (Get [([4], entryToBuf ⟨0, 9, [1]⟩)] 50
      ⟨[[4], [5]], [11, 12], [true, false]⟩).isSome = true ∧
    (GetE [([4], entryToBuf ⟨0, 9, [1]⟩)] 50
      ⟨[[4], [5]], [11, 12], [true, false]⟩).isSome = true :=
  batched_get_total [([4], entryToBuf ⟨0, 9, [1]⟩)] 50
    ⟨[[4], [5]], [11, 12], [true, false]⟩ (by decide) (by decide) (by decide)

/-- C4: for a batched Get or GetE whose per-key lookups may fail with
engine errors: when the keys split as pre ++ k :: post with every lookup
in pre succeeding or merely absent and k failing with a non-absence
error, the background task emits exactly one result per pre key, stops
there (post is never processed), pushes that single error on the error
channel, and still closes both channels; when every lookup succeeds or is
merely absent, both channels are closed with no error event. -/
theorem batched_get_error_contract
    (lookup : List Nat → Except LmdbErr (List Nat)) (now : Nat)
    (cmd : GetRequest)
    (hbuf : ∀ k buf, lookup k = .ok buf → 8 ≤ buf.length)
    (hq : cmd.keys.length ≤ cmd.quiet.length)
    (ho : cmd.keys.length ≤ cmd.oids.length) :
    (∀ pre k post er, cmd.keys = pre ++ k :: post →
      (∀ k2 ∈ pre, okOrNotFound (lookup k2) = true) →
      lookup k = .error er →
      decode er ≠ CommonErr.keyNotFound →
      (∃ rs : List GetResponse, realHandleGet lookup now cmd = some (rs.map Ev.data ++
          [Ev.err (decode er), Ev.closeData, Ev.closeErr]) ∧
        rs.length = pre.length) ∧
      (∃ rs : List GetEResponse, realHandleGetE lookup now cmd = some (rs.map Ev.data ++
          [Ev.err (decode er), Ev.closeData, Ev.closeErr]) ∧
        rs.length = pre.length)) ∧
    ((∀ k2 ∈ cmd.keys, okOrNotFound (lookup k2) = true) →
      (∃ rs : List GetResponse, realHandleGet lookup now cmd = some (rs.map Ev.data ++
          [Ev.closeData, Ev.closeErr]) ∧
        rs.length = cmd.keys.length) ∧
      (∃ rs : List GetEResponse, realHandleGetE lookup now cmd = some (rs.map Ev.data ++
          [Ev.closeData, Ev.closeErr]) ∧
        rs.length = cmd.keys.length)) := by
  constructor
  · intro pre k post er hsplit hok hlk hne
    have hlen : pre.length + (post.length + 1) = cmd.keys.length := by
      rw [hsplit]
      simp [Nat.add_comm]
    have hqp : 0 + pre.length ≤ cmd.quiet.length := by omega
    have hop : 0 + pre.length ≤ cmd.oids.length := by omega
    have h1 := getBody_first_err lookup now pre k post cmd.quiet cmd.oids 0 er
      hok hbuf hlk hne hqp hop
    have h2 := getEBody_first_err lookup now pre k post cmd.quiet cmd.oids 0 er
      hok hbuf hlk hne hqp hop
    constructor
    · refine ⟨(pre.zip (cmd.quiet.zip cmd.oids)).map
        (fun x => perKeyGet lookup now x.1 x.2.1 x.2.2), ?_, ?_⟩
      · rw [realHandleGet, hsplit, h1]
        simp [evTrace]
      · rw [List.length_map, List.length_zip, List.length_zip]
        omega
    · refine ⟨(pre.zip (cmd.quiet.zip cmd.oids)).map
        (fun x => perKeyGetE lookup now x.1 x.2.1 x.2.2), ?_, ?_⟩
      · rw [realHandleGetE, hsplit, h2]
        simp [evTrace]
      · rw [List.length_map, List.length_zip, List.length_zip]
        omega
  · intro hok
    have h1 := getBody_all_ok lookup now cmd.keys cmd.quiet cmd.oids 0
      hok hbuf (by omega) (by omega)
    have h2 := getEBody_all_ok lookup now cmd.keys cmd.quiet cmd.oids 0
      hok hbuf (by omega) (by omega)
    constructor
    · refine ⟨(cmd.keys.zip (cmd.quiet.zip cmd.oids)).map
        (fun x => perKeyGet lookup now x.1 x.2.1 x.2.2), ?_, ?_⟩
      · rw [realHandleGet, h1]
        simp [evTrace]
      · rw [List.length_map, List.length_zip, List.length_zip]
        omega
    · refine ⟨(cmd.keys.zip (cmd.quiet.zip cmd.oids)).map
        (fun x => perKeyGetE lookup now x.1 x.2.1 x.2.2), ?_, ?_⟩
      · rw [realHandleGetE, h2]
        simp [evTrace]
      · rw [List.length_map, List.length_zip, List.length_zip]
        omega

/-- Witness for C4: a lookup that always fails with a non-absence engine
error, on a two-key request. -/
theorem batched_get_error_contract_witness :
    (∀ pre k post er,
      ([[0], [1]] : List (List Nat)) = pre ++ k :: post →
      (∀ k2 ∈ pre, okOrNotFound ((fun _ => Except.error (LmdbErr.other 3) :
        List Nat → Except LmdbErr (List Nat)) k2) = true) →
      (fun _ => Except.error (LmdbErr.other 3) :
        List Nat → Except LmdbErr (List Nat)) k = .error er →
      decode er ≠ CommonErr.keyNotFound →
      (∃ rs : List GetResponse, realHandleGet (fun _ => Except.error (LmdbErr.other 3)) 60
          ⟨[[0], [1]], [5, 6], [false, true]⟩ = some (rs.map Ev.data ++
          [Ev.err (decode er), Ev.closeData, Ev.closeErr]) ∧
        rs.length = pre.length) ∧
      (∃ rs : List GetEResponse, realHandleGetE (fun _ => Except.error (LmdbErr.other 3)) 60
          ⟨[[0], [1]], [5, 6], [false, true]⟩ = some (rs.map Ev.data ++
          [Ev.err (decode er), Ev.closeData, Ev.closeErr]) ∧
        rs.length = pre.length)) ∧
    ((∀ k2 ∈ ([[0], [1]] : List (List Nat)),
        okOrNotFound ((fun _ => Except.error (LmdbErr.other 3) :
          List Nat → Except LmdbErr (List Nat)) k2) = true) →
      (∃ rs : List GetResponse, realHandleGet (fun _ => Except.error (LmdbErr.other 3)) 60
          ⟨[[0], [1]], [5, 6], [false, true]⟩ = some (rs.map Ev.data ++
          [Ev.closeData, Ev.closeErr]) ∧
        rs.length = ([[0], [1]] : List (List Nat)).length) ∧
      (∃ rs : List GetEResponse, realHandleGetE (fun _ => Except.error (LmdbErr.other 3)) 60
          ⟨[[0], [1]], [5, 6], [false, true]⟩ = some (rs.map Ev.data ++
          [Ev.closeData, Ev.closeErr]) ∧
        rs.length = ([[0], [1]] : List (List Nat)).length)) :=
  batched_get_error_contract (fun _ => Except.error (LmdbErr.other 3)) 60
    ⟨[[0], [1]], [5, 6], [false, true]⟩
    (fun k buf h => nomatch h) (by decide) (by decide)

end RendLMDB
